import Mathlib

/-!
# Verification of the gmadet candidate-reduction pipeline

Shallow embedding of the algorithmic core of `gmadet/gmadet.py`:
the catalog cross-matching and candidate-reduction stage
(`crosscheck_with_catalogues`), the quadrant label generation and the
scamp iteration loop of `astrometric_calib`, and the pixel-scale header
lookup.  Tables are lists of rows; the `idx` column of the candidates
table is modelled explicitly as the first component of each row.
-/

namespace Gmadet

/-! ## Candidate table

A row of the candidates table is a pair `(idx, payload)`: the integer
`idx` column together with all remaining columns (pixel positions, sky
positions, magnitudes, ...), which the filtration loop never inspects.
-/

/-- `table['idx'] = np.arange(len(table))` applied to a table that does not
yet carry an `idx` column (gmadet.py line 434): attach dense 0-based
indices. -/
def assignIdx {α : Type} (rows : List α) : List (ℕ × α) :=
  (List.range rows.length).zip rows

/-- The payload columns of a candidates table (everything but `idx`). -/
def payloads {α : Type} (cands : List (ℕ × α)) : List α :=
  cands.map Prod.snd

/-- One catalog filtration pass (gmadet.py lines 447-464):
`flag = np.zeros(len(candidates))`;
`referenced_star_idx = np.unique(crossmatch['idx'])` (duplicates collapsed);
`flag[referenced_star_idx] = 1`;
`candidates = candidates[flag == 0]` (positional boolean mask);
`candidates['idx'] = np.arange(len(candidates))` (dense reindexing). -/
def filterStep {α : Type} (matchedIdx : List ℕ) (cands : List (ℕ × α)) :
    List (ℕ × α) :=
  let referenced := matchedIdx.dedup
  let kept := (((List.range cands.length).zip cands).filter
    (fun p => decide (p.1 ∉ referenced))).map Prod.snd
  assignIdx (payloads kept)

/-- The catalog loop of `crosscheck_with_catalogues` (lines 441-467).
`xmatch` is the `run_xmatch` oracle: catalog identifier, current table and
radius in arcseconds in, the `idx` column of the match result out.  Besides
the final table, the list of queries actually issued (catalog identifier
and the arcsecond radius passed to `run_xmatch`) is returned.  After each
pass, `if (len(candidates) == 0): break` skips the remaining catalogs. -/
def crosscheckLoop {α : Type} (xmatch : String → List (ℕ × α) → ℚ → List ℕ)
    (pixScale radius : ℚ) :
    List String → List (ℕ × α) → List (ℕ × α) × List (String × ℚ)
  | [], cands => (cands, [])
  | catalog :: rest, cands =>
    let crossmatch := xmatch catalog cands (radius * pixScale * 3600)
    let cands2 := filterStep crossmatch cands
    if cands2.length = 0 then
      (cands2, [(catalog, radius * pixScale * 3600)])
    else
      let r := crosscheckLoop xmatch pixScale radius rest cands2
      (r.1, (catalog, radius * pixScale * 3600) :: r.2)

/-- The same catalog sequence applied without the early exit: the plain
composition of the filtration passes, used to phrase when the candidate
set has become empty after `k` catalogs. -/
def applyCats {α : Type} (xmatch : String → List (ℕ × α) → ℚ → List ℕ)
    (pixScale radius : ℚ) :
    List String → List (ℕ × α) → List (ℕ × α)
  | [], cands => cands
  | catalog :: rest, cands =>
    applyCats xmatch pixScale radius rest
      (filterStep (xmatch catalog cands (radius * pixScale * 3600)) cands)

/-- The dense-index invariant of the candidates table: each row's `idx`
field equals its position.  It holds when the table is first built
(line 434) and is restored by every filtration pass (line 464). -/
def DenseIdx {α : Type} (cands : List (ℕ × α)) : Prop :=
  cands = assignIdx (payloads cands)

/-! ## Pixel scale lookup

`crosscheck_with_catalogues` lines 392-402: nested try/except over the
header keys `CDELT1`, `_DELT1`, `CD1_1`, in that order, taking the
absolute value of the first key present.  When all three are absent the
source only prints a warning; the Python variable `pixScale` is left
unassigned, so the value from an earlier loop iteration (an earlier file)
persists.
-/

structure FitsHeader where
  /-- header key `CDELT1` -/
  cdelt1 : Option ℚ
  /-- header key `_DELT1` -/
  delt1 : Option ℚ
  /-- header key `CD1_1` -/
  cd1_1 : Option ℚ
deriving DecidableEq

/-- The try/except chain: first key present wins, absolute value taken;
`none` when all three keys are missing (the source prints a message and
assigns nothing in that case). -/
def getPixScale (h : FitsHeader) : Option ℚ :=
  match h.cdelt1 with
  | some v => some |v|
  | none =>
    match h.delt1 with
    | some v => some |v|
    | none =>
      match h.cd1_1 with
      | some v => some |v|
      | none => none

/-- One iteration of the per-file merge loop as far as the `pixScale`
variable is concerned: assignment happens only when a key is found,
otherwise the previous value survives the iteration. -/
def pixScaleStep (st : Option ℚ) (h : FitsHeader) : Option ℚ :=
  match getPixScale h with
  | some v => some v
  | none => st

/-- The value of the Python variable `pixScale` after the merge loop has
run over the given sequence of file headers (the value later used for
every catalog query radius conversion, lines 440 and 444). -/
def pixScaleAfter (headers : List FitsHeader) : Option ℚ :=
  headers.foldl pixScaleStep none

/-! ## The scamp iteration loop

`astrometric_calib`, lines 85-91 (identical shape at lines 96-102):

`ii = 0; doffset = 10`
`while (doffset >= accuracy) and (ii <= itermax): ii += 1; doffset = scamp(...)`

`residual k` is the value returned by the `(k+1)`-st scamp invocation.
The fuel argument only bounds the recursion; `itermax + 2` is always
enough, because the guard `ii <= itermax` fails at the latest when
`ii = itermax + 1`, i.e. after `itermax + 1` invocations.  The function
returns the number of scamp invocations performed. -/
def scampLoopGo (residual : ℕ → ℚ) (accuracy : ℚ) (itermax : ℕ) :
    ℕ → ℕ → ℚ → ℕ → ℕ
  | 0, _, _, calls => calls
  | fuel + 1, ii, doffset, calls =>
    if accuracy ≤ doffset ∧ ii ≤ itermax then
      scampLoopGo residual accuracy itermax fuel (ii + 1) (residual calls)
        (calls + 1)
    else calls

/-- Number of scamp invocations for one file. -/
def scampCalls (residual : ℕ → ℚ) (accuracy : ℚ) (itermax : ℕ) : ℕ :=
  scampLoopGo residual accuracy itermax (itermax + 2) 0 10 0

/-! ## Quadrant labels

`astrometric_calib`, lines 78-104 (scamp branch): for a grid with more
than one cell the nested loops `for i in range(Nb_cuts[0]): for j in
range(Nb_cuts[1])` increment a counter `index` once per inner iteration
and append the label `'Q%d_%d_%d' % (index, i, j)`; otherwise the single
label is the string `'None'`.
-/

/-- The (row, column) pairs visited by the nested quadrant loops. -/
def quadIndexPairs (r c : ℕ) : List (ℕ × ℕ) :=
  (List.range r).flatMap fun i => (List.range c).map fun j => (i, j)

/-- `'Q%d_%d_%d' % (n, i, j)`: decimal rendering of the three numbers. -/
def quadrantLabel (n i j : ℕ) : String :=
  "Q" ++ Nat.repr n ++ "_" ++ Nat.repr i ++ "_" ++ Nat.repr j

/-- The quadrant label column of the image table returned by
`astrometric_calib`: the counter `index` equals one plus the row-major
position of the pair `(i, j)`. -/
def quadrantLabels (r c : ℕ) : List String :=
  if 1 < r ∨ 1 < c then
    ((List.range (quadIndexPairs r c).length).zip (quadIndexPairs r c)).map
      fun p => quadrantLabel (p.1 + 1) p.2.1 p.2.2
  else ["None"]

/-! ## Python string primitives

`str.split` (single-character separator) and `int` are re-implemented
structurally over the character list of the string, because the
quadrant-label parsing and the output file naming of
`crosscheck_with_catalogues` are built on them.
-/

/-- Python `str.split(sep)` for a one-character separator, acting on the
character list (`'a_b'.split('_') == ['a', 'b']`, `''.split('_') == ['']`). -/
def splitOnChar (sep : Char) : List Char → List (List Char)
  | [] => [[]]
  | c :: cs =>
    let r := splitOnChar sep cs
    if c = sep then [] :: r
    else (c :: r.headD []) :: r.tail

/-- Python `s.split(sep)` on strings. -/
def pySplit (sep : Char) (s : String) : List String :=
  (splitOnChar sep s.data).map String.mk

/-- Python `int(s)` restricted to plain runs of decimal digits (the only
shape occurring in quadrant labels); `none` models the `ValueError`
raised on other inputs. -/
def pyInt (s : String) : Option ℕ :=
  if s.data ≠ [] ∧ s.data.all Char.isDigit then
    some (s.data.foldl (fun a c => 10 * a + (c.toNat - 48)) 0)
  else none

/-! ## Quadrant-to-global position reassembly

`crosscheck_with_catalogues`, lines 408-424: the original image's header
gives `Naxis1 = NAXIS1` and `Naxis2 = NAXIS2`;
`Naxis11 = int(Naxis1 / Nb_cuts[0])`, `Naxis22 = int(Naxis2 / Nb_cuts[1])`;
for a partitioned image the quadrant label is split on `'_'` into
`quad, index_i, index_j`, while for `Nb_cuts == (1, 1)` both indices are
set to `0`; then `Xpos += Naxis22 * int(index_j)` and
`Ypos += Naxis11 * int(index_i)`.
-/

structure PixPos where
  x : ℚ
  y : ℚ
deriving DecidableEq

/-- `quad, index_i, index_j = quadrant.split('_')` with `int(index_i)` and
`int(index_j)`; `none` models the `ValueError` on a label without exactly
three parts or with non-numeric index parts. -/
def parseQuadIndices (label : String) : Option (ℕ × ℕ) :=
  match pySplit '_' label with
  | [_, si, sj] =>
    match pyInt si, pyInt sj with
    | some i, some j => some (i, j)
    | _, _ => none
  | _ => none

/-- The corrected (global) pixel position of a detection. -/
def globalPosition (naxis1 naxis2 : ℕ) (nbCuts : ℕ × ℕ) (label : String)
    (p : PixPos) : Option PixPos :=
  let naxis11 := naxis1 / nbCuts.1
  let naxis22 := naxis2 / nbCuts.2
  let indices := if nbCuts = (1, 1) then some (0, 0) else parseQuadIndices label
  indices.map fun ij =>
    { x := p.x + (naxis22 : ℚ) * (ij.2 : ℚ), y := p.y + (naxis11 : ℚ) * (ij.1 : ℚ) }

/-! ## Output file naming

`crosscheck_with_catalogues`, lines 370-388 and 469-474.
-/

/-- `filename2 = filename_ext.split('.')[0]` (line 371). -/
def fileStem (filenameExt : String) : String :=
  (pySplit '.' filenameExt).headD ""

/-- Lines 378-386: recover the original (non-quadrant) name.  For an
unpartitioned run the stem is used as is; otherwise the length of the
last underscore-separated component of the stem decides how many trailing
characters are dropped (3 for a two-character part such as `Q4`, 4 for a
three-character part such as `Q12`); any other length leaves the Python
variable `idx` unbound (`NameError`), modelled as `none`. -/
def originalName (folder filename2 : String) (nbCuts : ℕ × ℕ) : Option String :=
  if nbCuts = (1, 1) then some (folder ++ filename2)
  else
    let lastPart := (pySplit '_' filename2).getLastD ""
    if lastPart.length = 2 then some (folder ++ filename2.dropRight 3)
    else if lastPart.length = 3 then some (folder ++ filename2.dropRight 4)
    else none

/-- Lines 388 and 470-472: the final candidates file `<original name>.oc`. -/
def ocFileName (folder filename2 : String) (nbCuts : ℕ × ℕ) : Option String :=
  (originalName folder filename2 nbCuts).map (fun s => s ++ ".oc")

/-- Lines 473-474: the sky-position companion is written to
`folder + filename2 + '_oc_RADEC'`, where `filename2` is the stem of the
file processed in the *last* iteration of the merge loop (still carrying
its quadrant suffix when the image was partitioned). -/
def radecFileName (folder filename2 : String) : String :=
  folder ++ filename2 ++ "_oc_RADEC"

/-! ## Decimal rendering of natural numbers

`Nat.repr` (the Lean counterpart of Python's `'%d'` formatting) is needed
with two facts the library does not provide: it is injective and it never
produces an underscore.  `natDigits` is a structurally transparent
reformulation of `Nat.toDigits 10`.
-/

/-- The decimal digit characters of `n`, most significant first. -/
def natDigits (n : ℕ) : List Char :=
  if n < 10 then [Nat.digitChar n]
  else natDigits (n / 10) ++ [Nat.digitChar (n % 10)]
decreasing_by exact Nat.div_lt_self (by omega) (by omega)

/-! ## Helper lemmas: decimal rendering -/

theorem digitChar_val (m : ℕ) (hm : m < 10) : (Nat.digitChar m).toNat - 48 = m := by
  interval_cases m <;> decide

theorem digitChar_ne_underscore (m : ℕ) (hm : m < 10) : Nat.digitChar m ≠ '_' := by
  interval_cases m <;> decide

theorem natDigits_lt (n : ℕ) (h : n < 10) : natDigits n = [Nat.digitChar n] := by
  rw [natDigits, if_pos h]

theorem natDigits_ge (n : ℕ) (h : ¬ n < 10) :
    natDigits n = natDigits (n / 10) ++ [Nat.digitChar (n % 10)] := by
  rw [natDigits, if_neg h]

theorem toDigitsCore_succ (f n : ℕ) (ds : List Char) :
    Nat.toDigitsCore 10 (f + 1) n ds =
      if n / 10 = 0 then Nat.digitChar (n % 10) :: ds
      else Nat.toDigitsCore 10 f (n / 10) (Nat.digitChar (n % 10) :: ds) := by
  rfl

theorem toDigitsCore_eq_natDigits :
    ∀ n fuel ds, n ≤ fuel →
      Nat.toDigitsCore 10 (fuel + 1) n ds = natDigits n ++ ds := by
  intro n
  induction n using Nat.strong_induction_on with
  | _ n ih =>
    intro fuel ds hn
    rw [toDigitsCore_succ]
    by_cases h : n / 10 = 0
    · rw [if_pos h]
      have hlt : n < 10 := by omega
      rw [natDigits_lt n hlt, Nat.mod_eq_of_lt hlt]
      rfl
    · rw [if_neg h]
      obtain ⟨f, rfl⟩ : ∃ f, fuel = f + 1 := ⟨fuel - 1, by omega⟩
      rw [ih (n / 10) (Nat.div_lt_self (by omega) (by omega)) f
        (Nat.digitChar (n % 10) :: ds) (by omega)]
      rw [natDigits_ge n (by omega)]
      simp

theorem toDigits_eq_natDigits (n : ℕ) : Nat.toDigits 10 n = natDigits n := by
  have := toDigitsCore_eq_natDigits n n [] le_rfl
  simpa [Nat.toDigits] using this

theorem natDigits_foldl (n : ℕ) :
    ∀ a, List.foldl (fun acc ch => 10 * acc + (ch.toNat - 48)) a (natDigits n) =
      a * 10 ^ (natDigits n).length + n := by
  induction n using Nat.strong_induction_on with
  | _ n ih =>
    intro a
    by_cases h : n < 10
    · rw [natDigits_lt n h]
      simp only [List.foldl_cons, List.foldl_nil, List.length_cons, List.length_nil]
      rw [digitChar_val n h]
      ring
    · rw [natDigits_ge n h]
      rw [List.foldl_append]
      rw [ih (n / 10) (Nat.div_lt_self (by omega) (by omega)) a]
      simp only [List.foldl_cons, List.foldl_nil, List.length_append, List.length_cons,
        List.length_nil]
      rw [digitChar_val (n % 10) (Nat.mod_lt _ (by omega))]
      have : 10 * (a * 10 ^ (natDigits (n / 10)).length + n / 10) + n % 10
          = a * 10 ^ ((natDigits (n / 10)).length + 1) + (10 * (n / 10) + n % 10) := by ring
      rw [this, Nat.div_add_mod]

theorem natDigits_injective : Function.Injective natDigits := by
  intro a b hab
  have ha := natDigits_foldl a 0
  have hb := natDigits_foldl b 0
  rw [hab] at ha
  omega

theorem repr_injective : Function.Injective Nat.repr := by
  intro a b hab
  apply natDigits_injective
  rw [← toDigits_eq_natDigits, ← toDigits_eq_natDigits]
  have : (Nat.repr a).data = (Nat.repr b).data := by rw [hab]
  simpa [Nat.repr, List.asString] using this

theorem natDigits_ne_underscore (n : ℕ) : ∀ ch ∈ natDigits n, ch ≠ '_' := by
  induction n using Nat.strong_induction_on with
  | _ n ih =>
    intro ch hch
    by_cases h : n < 10
    · rw [natDigits_lt n h] at hch
      simp at hch
      subst hch
      exact digitChar_ne_underscore n h
    · rw [natDigits_ge n h] at hch
      rw [List.mem_append] at hch
      rcases hch with hch | hch
      · exact ih (n / 10) (Nat.div_lt_self (by omega) (by omega)) ch hch
      · simp at hch
        subst hch
        exact digitChar_ne_underscore (n % 10) (Nat.mod_lt _ (by omega))

theorem repr_data_ne_underscore (n : ℕ) : ∀ ch ∈ (Nat.repr n).data, ch ≠ '_' := by
  intro ch hch
  apply natDigits_ne_underscore n
  rw [← toDigits_eq_natDigits]
  simpa [Nat.repr, List.asString] using hch

/-! ## Helper lemmas: candidate tables -/

theorem length_assignIdx {α : Type} (rows : List α) :
    (assignIdx rows).length = rows.length := by
  simp [assignIdx]

theorem payloads_assignIdx {α : Type} (rows : List α) :
    payloads (assignIdx rows) = rows := by
  simp only [assignIdx, payloads]
  exact List.map_snd_zip _ _ (by simp)

theorem getElem_assignIdx {α : Type} (rows : List α) (k : ℕ)
    (hk : k < (assignIdx rows).length) :
    (assignIdx rows)[k] =
      (k, rows.get ⟨k, by simpa [length_assignIdx] using hk⟩) := by
  simp [assignIdx, List.getElem_zip]

theorem denseIdx_assignIdx {α : Type} (rows : List α) :
    DenseIdx (assignIdx rows) := by
  unfold DenseIdx
  rw [payloads_assignIdx]

theorem fst_getElem_of_dense {α : Type} {cands : List (ℕ × α)}
    (h : DenseIdx cands) (k : ℕ) (hk : k < cands.length) :
    (cands[k]).1 = k := by
  have he := List.getElem_of_eq h hk
  rw [he, getElem_assignIdx]

theorem zip_range_of_dense {α : Type} {cands : List (ℕ × α)}
    (h : DenseIdx cands) :
    (List.range cands.length).zip cands = cands.map fun r => (r.1, r) := by
  apply List.ext_getElem
  · simp
  · intro k h1 h2
    have hk : k < cands.length := by simpa using h2
    rw [List.getElem_zip, List.getElem_range, List.getElem_map,
      fst_getElem_of_dense h k hk]

theorem filterStep_of_dense {α : Type} (m : List ℕ) {cands : List (ℕ × α)}
    (h : DenseIdx cands) :
    filterStep m cands =
      assignIdx (payloads (cands.filter fun r => decide (r.1 ∉ m))) := by
  simp only [filterStep]
  rw [zip_range_of_dense h, List.filter_map, List.map_map]
  have hmap : (Prod.snd ∘ fun r : ℕ × α => (r.1, r)) = id := rfl
  rw [hmap, List.map_id]
  have hpred : ∀ r ∈ cands,
      ((fun p : ℕ × (ℕ × α) => decide (p.1 ∉ m.dedup)) ∘ fun r : ℕ × α => (r.1, r)) r
        = decide (r.1 ∉ m) := by
    intro r _
    simp [List.mem_dedup]
  rw [List.filter_congr hpred]

theorem filterStep_congr {α : Type} (m m2 : List ℕ) (cands : List (ℕ × α))
    (hm : ∀ x, x ∈ m ↔ x ∈ m2) :
    filterStep m cands = filterStep m2 cands := by
  simp only [filterStep]
  have hpred : ∀ p ∈ (List.range cands.length).zip cands,
      decide (p.1 ∉ m.dedup) = decide (p.1 ∉ m2.dedup) := by
    intro p _
    simp [List.mem_dedup, hm]
  rw [List.filter_congr hpred]

theorem filterStep_payloads_sublist {α : Type} (m : List ℕ)
    (cands : List (ℕ × α)) :
    (payloads (filterStep m cands)).Sublist (payloads cands) := by
  simp only [filterStep]
  rw [payloads_assignIdx]
  have h1 : ((((List.range cands.length).zip cands).filter
      (fun p => decide (p.1 ∉ m.dedup))).map Prod.snd).Sublist
      (((List.range cands.length).zip cands).map Prod.snd) :=
    (List.filter_sublist _).map _
  rw [List.map_snd_zip _ _ (by simp)] at h1
  simpa [payloads] using h1.map Prod.snd

theorem filterStep_length_le {α : Type} (m : List ℕ) (cands : List (ℕ × α)) :
    (filterStep m cands).length ≤ cands.length := by
  have := (filterStep_payloads_sublist m cands).length_le
  simpa [payloads] using this

theorem filterStep_nil_of_dense {α : Type} {cands : List (ℕ × α)}
    (h : DenseIdx cands) : filterStep ([] : List ℕ) cands = cands := by
  rw [filterStep_of_dense [] h]
  have hf : (cands.filter fun r => decide (r.1 ∉ ([] : List ℕ))) = cands :=
    List.filter_eq_self.mpr (by intro a _; simp)
  rw [hf, ← h]

theorem denseIdx_filterStep {α : Type} (m : List ℕ) (cands : List (ℕ × α)) :
    DenseIdx (filterStep m cands) := by
  simp only [filterStep]
  exact denseIdx_assignIdx _

theorem applyCats_payloads_sublist {α : Type}
    (xm : String → List (ℕ × α) → ℚ → List ℕ) (ps r : ℚ) :
    ∀ (cats : List String) (cands : List (ℕ × α)),
      (payloads (applyCats xm ps r cats cands)).Sublist (payloads cands) := by
  intro cats
  induction cats with
  | nil => intro cands; simp [applyCats]
  | cons cat rest ih =>
    intro cands
    simp only [applyCats]
    exact (ih _).trans (filterStep_payloads_sublist _ _)

/-! ## Claims C1 and C2 -/

/-- C1: after one catalog pass of the Candidate Reducer the surviving
candidate set consists of exactly the rows whose index received no match
(duplicate matches to the same index counted once), re-assigned dense
indices `0..n-1`; a removed candidate is never reconsidered by any later
catalog (every later pass works inside the survivors); and for 3
detections and a single catalog matching only index 1, the final
candidate set is the former rows 0 and 2 re-indexed to 0 and 1. -/
theorem claim_C1_strict_filtration {α : Type} (m : List ℕ)
    (cands : List (ℕ × α)) (h : DenseIdx cands) :
    filterStep m cands =
        assignIdx (payloads (cands.filter fun r => decide (r.1 ∉ m))) ∧
      (∀ m2 : List ℕ, (∀ x, x ∈ m ↔ x ∈ m2) →
        filterStep m2 cands = filterStep m cands) ∧
      (∀ (xm : String → List (ℕ × α) → ℚ → List ℕ) (ps rad : ℚ)
        (cats : List String),
        (payloads (applyCats xm ps rad cats (filterStep m cands))).Sublist
          (payloads (filterStep m cands))) ∧
      (crosscheckLoop (fun _ _ _ => [1]) 1 1 ["I/345/gaia2"]
        (assignIdx [10, 20, 30])).1 = [(0, 10), (1, 30)] := by
  refine ⟨filterStep_of_dense m h, ?_, ?_, ?_⟩
  · intro m2 hm
    exact filterStep_congr m2 m cands (fun x => (hm x).symm)
  · intro xm ps rad cats
    exact applyCats_payloads_sublist xm ps rad cats _
  · decide

/-- C1 witness: the filtration characterisation instantiated on a concrete
dense three-row table and the match list `[1, 1]` (a duplicated match). -/
theorem claim_C1_strict_filtration_witness :
    filterStep [1, 1] (assignIdx [10, 20, 30]) =
        assignIdx (payloads ((assignIdx [10, 20, 30]).filter
          fun r => decide (r.1 ∉ [1, 1]))) :=
  (claim_C1_strict_filtration [1, 1] (assignIdx [10, 20, 30])
    (denseIdx_assignIdx _)).1

/-- C2: after each catalog pass the candidate set is a sublist (hence a
subset) of the candidate set before the pass, its size never grows, and a
no-op catalog pass (zero matches) leaves the candidate set unchanged. -/
theorem claim_C2_monotone_filtration {α : Type} (m : List ℕ)
    (cands : List (ℕ × α)) :
    (payloads (filterStep m cands)).Sublist (payloads cands) ∧
      (filterStep m cands).length ≤ cands.length ∧
      (DenseIdx cands → filterStep ([] : List ℕ) cands = cands) := by
  exact ⟨filterStep_payloads_sublist m cands, filterStep_length_le m cands,
    fun h => filterStep_nil_of_dense h⟩

/-- C2 witness: the monotonicity statement on a concrete table, with the
no-op hypothesis discharged. -/
theorem claim_C2_monotone_filtration_witness :
    (payloads (filterStep [0, 2] (assignIdx [10, 20, 30]))).Sublist
        (payloads (assignIdx [10, 20, 30])) ∧
      filterStep ([] : List ℕ) (assignIdx [10, 20, 30]) =
        assignIdx [10, 20, 30] := by
  refine ⟨(claim_C2_monotone_filtration [0, 2] (assignIdx [10, 20, 30])).1,
    (claim_C2_monotone_filtration [0, 2] (assignIdx [10, 20, 30])).2.2
      (denseIdx_assignIdx _)⟩

/-! ## Helper lemmas: the catalog loop -/

theorem crosscheckLoop_tolerance {α : Type}
    (xm : String → List (ℕ × α) → ℚ → List ℕ) (ps rad : ℚ) :
    ∀ (cats : List String) (cands : List (ℕ × α)),
      ∀ q ∈ (crosscheckLoop xm ps rad cats cands).2, q.2 = rad * ps * 3600 := by
  intro cats
  induction cats with
  | nil => intro cands q hq; simp [crosscheckLoop] at hq
  | cons cat rest ih =>
    intro cands q hq
    simp only [crosscheckLoop] at hq
    by_cases h : (filterStep (xm cat cands (rad * ps * 3600)) cands).length = 0
    · rw [if_pos h] at hq
      simp at hq
      rw [hq]
    · rw [if_neg h] at hq
      simp only [List.mem_cons] at hq
      rcases hq with hq | hq
      · rw [hq]
      · exact ih _ q hq

theorem crosscheckLoop_queries_take {α : Type}
    (xm : String → List (ℕ × α) → ℚ → List ℕ) (ps rad : ℚ) :
    ∀ (cats : List String) (cands : List (ℕ × α)),
      ((crosscheckLoop xm ps rad cats cands).2).map Prod.fst =
        cats.take ((crosscheckLoop xm ps rad cats cands).2).length := by
  intro cats
  induction cats with
  | nil => intro cands; simp [crosscheckLoop]
  | cons cat rest ih =>
    intro cands
    simp only [crosscheckLoop]
    by_cases h : (filterStep (xm cat cands (rad * ps * 3600)) cands).length = 0
    · rw [if_pos h]; simp
    · rw [if_neg h]
      simp only [List.map_cons, List.length_cons, List.take_succ_cons]
      rw [ih]

theorem crosscheckLoop_stops {α : Type}
    (xm : String → List (ℕ × α) → ℚ → List ℕ) (ps rad : ℚ) :
    ∀ (cats : List String) (cands : List (ℕ × α)) (k : ℕ),
      cands ≠ [] →
      applyCats xm ps rad (cats.take k) cands = [] →
      ((crosscheckLoop xm ps rad cats cands).2).length ≤ k := by
  intro cats
  induction cats with
  | nil => intro cands k _ _; simp [crosscheckLoop]
  | cons cat rest ih =>
    intro cands k hne hempty
    match k with
    | 0 =>
      rw [List.take_zero] at hempty
      simp only [applyCats] at hempty
      exact absurd hempty hne
    | k + 1 =>
      rw [List.take_succ_cons] at hempty
      simp only [applyCats] at hempty
      simp only [crosscheckLoop]
      by_cases h : (filterStep (xm cat cands (rad * ps * 3600)) cands).length = 0
      · rw [if_pos h]
        simp
      · rw [if_neg h]
        simp only [List.length_cons]
        have hne2 : filterStep (xm cat cands (rad * ps * 3600)) cands ≠ [] := by
          intro hx
          rw [hx] at h
          simp at h
        have := ih _ k hne2 hempty
        omega

/-! ## Claims C5 and C6 -/

/-- C5: every catalog query issued by the reducer is passed the angular
tolerance `radius * pixScale * 3600` arcseconds; for pixel scale
`0.0001543390` degrees/pixel and a 3-pixel radius, the tolerance passed
to the query is `1.6668612` arcseconds, i.e. `1.667` up to `10⁻³`. -/
theorem claim_C5_tolerance_arcsec {α : Type}
    (xm : String → List (ℕ × α) → ℚ → List ℕ) (pixScale radius : ℚ)
    (cats : List String) (cands : List (ℕ × α)) :
    (∀ q ∈ (crosscheckLoop xm pixScale radius cats cands).2,
        q.2 = radius * pixScale * 3600) ∧
      (crosscheckLoop (fun _ _ _ => ([] : List ℕ)) (1543390 / 10 ^ 10) 3
          ["I/345/gaia2"] (assignIdx [(0 : ℕ)])).2 =
        [("I/345/gaia2", 16668612 / 10 ^ 7)] ∧
      |(16668612 : ℚ) / 10 ^ 7 - 1667 / 1000| < 1 / 1000 := by
  refine ⟨crosscheckLoop_tolerance xm pixScale radius cats cands, ?_, ?_⟩
  · simp only [crosscheckLoop]
    rw [filterStep_nil_of_dense (denseIdx_assignIdx [(0 : ℕ)])]
    rw [if_neg (by simp [assignIdx])]
    simp only [crosscheckLoop]
    norm_num
  · rw [abs_lt]
    constructor <;> norm_num

/-- C5 witness: the tolerance property applied to a concrete query of a
concrete run (the membership hypothesis is discharged via the concrete
query list of the same run). -/
theorem claim_C5_tolerance_arcsec_witness :
    ((16668612 : ℚ) / 10 ^ 7) = 3 * (1543390 / 10 ^ 10) * 3600 := by
  have h := claim_C5_tolerance_arcsec (fun _ _ _ => ([] : List ℕ))
    (1543390 / 10 ^ 10) 3 ["I/345/gaia2"] (assignIdx [(0 : ℕ)])
  exact h.1 ("I/345/gaia2", 16668612 / 10 ^ 7)
    (by rw [h.2.1]; exact List.mem_singleton.mpr rfl)

/-- C6: once the candidate set becomes empty (after some catalog pass over
an initially non-empty set), the reducer stops early: the number of
queries issued is at most the number of passes needed to empty the set,
and the queried catalogs are exactly an initial segment of the configured
sequence — so no remaining catalog is queried. -/
theorem claim_C6_early_exit {α : Type}
    (xm : String → List (ℕ × α) → ℚ → List ℕ) (pixScale radius : ℚ)
    (cats : List String) (cands : List (ℕ × α)) (k : ℕ)
    (hne : cands ≠ [])
    (hempty : applyCats xm pixScale radius (cats.take k) cands = []) :
    ((crosscheckLoop xm pixScale radius cats cands).2).length ≤ k ∧
      ((crosscheckLoop xm pixScale radius cats cands).2).map Prod.fst =
        cats.take ((crosscheckLoop xm pixScale radius cats cands).2).length := by
  exact ⟨crosscheckLoop_stops xm pixScale radius cats cands k hne hempty,
    crosscheckLoop_queries_take xm pixScale radius cats cands⟩

/-- C6 witness: a two-catalog run over one candidate where the first
catalog matches everything; the second catalog is never queried. -/
theorem claim_C6_early_exit_witness :
    ((crosscheckLoop (fun _ _ _ => [0]) 1 1 ["I/345/gaia2", "II/349/ps1"]
        (assignIdx [10])).2).length ≤ 1 ∧
      ((crosscheckLoop (fun _ _ _ => [0]) 1 1 ["I/345/gaia2", "II/349/ps1"]
          (assignIdx [10])).2).map Prod.fst =
        ["I/345/gaia2", "II/349/ps1"].take
          ((crosscheckLoop (fun _ _ _ => [0]) 1 1 ["I/345/gaia2", "II/349/ps1"]
            (assignIdx [10])).2).length :=
  claim_C6_early_exit (fun _ _ _ => [0]) 1 1 ["I/345/gaia2", "II/349/ps1"]
    (assignIdx [10]) 1 (by decide) (by decide)

/-! ## Claims C10 and C4: the pixel-scale variable -/

/-- C10: the pixel scale used for the radius conversion of every catalog
query is the value of the Python variable `pixScale` after the last
iteration of the per-file merge loop: when the last file's header carries
one of the scale keys its value wins and all earlier values have no
effect; when the last file's header carries none of them the value read
from the earlier files is silently reused. -/
theorem claim_C10_last_file_pixscale (headers : List FitsHeader)
    (last : FitsHeader) :
    (∀ v : ℚ, getPixScale last = some v →
      (pixScaleAfter (headers ++ [last]) = some v ∧
        ∀ headers2 : List FitsHeader,
          pixScaleAfter (headers ++ [last]) =
            pixScaleAfter (headers2 ++ [last]))) ∧
      (getPixScale last = none →
        pixScaleAfter (headers ++ [last]) = pixScaleAfter headers) := by
  have hstep : ∀ hs : List FitsHeader,
      pixScaleAfter (hs ++ [last]) = pixScaleStep (pixScaleAfter hs) last := by
    intro hs
    simp [pixScaleAfter, List.foldl_append]
  constructor
  · intro v hv
    constructor
    · rw [hstep]
      simp [pixScaleStep, hv]
    · intro headers2
      rw [hstep, hstep]
      simp [pixScaleStep, hv]
  · intro hv
    rw [hstep]
    simp [pixScaleStep, hv]

/-- C10 witness: a first file with `CDELT1 = 2` followed by a last file
with `CDELT1 = 1/2`; the conversion uses `1/2`, and it would be unchanged
had the earlier file carried any other value. -/
theorem claim_C10_last_file_pixscale_witness :
    pixScaleAfter [⟨some 2, none, none⟩, ⟨some (1 / 2), none, none⟩] =
        some (1 / 2) ∧
      pixScaleAfter [⟨some 2, none, none⟩, ⟨some (1 / 2), none, none⟩] =
        pixScaleAfter [⟨some 7, none, none⟩, ⟨some (1 / 2), none, none⟩] := by
  have h := (claim_C10_last_file_pixscale [⟨some 2, none, none⟩]
    ⟨some (1 / 2), none, none⟩).1 (1 / 2) (by simp [getPixScale])
  exact ⟨h.1, h.2 [⟨some 7, none, none⟩]⟩

/-- C4: the header keys are indeed tried in the order `CDELT1`, `_DELT1`,
`CD1_1` with the absolute value of the first one found used; but when all
three keys are missing the code merely prints a warning: the lookup
produces no value at all, and the merge loop silently keeps the value
read from an earlier file instead of raising any error. -/
theorem claim_C4_missing_key_fallthrough :
    getPixScale ⟨some (-1 / 2), some 5, some 7⟩ = some (1 / 2) ∧
      getPixScale ⟨none, some (-5), some 7⟩ = some 5 ∧
      getPixScale ⟨none, none, some (-7)⟩ = some 7 ∧
      getPixScale ⟨none, none, none⟩ = none ∧
      pixScaleStep (some 3) ⟨none, none, none⟩ = some 3 ∧
      pixScaleAfter [⟨some 3, none, none⟩, ⟨none, none, none⟩] = some 3 := by
  refine ⟨?_, ?_, ?_, rfl, rfl, ?_⟩
  · simp [getPixScale]
    rw [abs_of_nonpos] <;> norm_num
  · simp [getPixScale]
  · simp [getPixScale]
  · simp [pixScaleAfter, pixScaleStep, getPixScale]

/-! ## Claim C7: the scamp iteration loop -/

theorem scampLoopGo_zero (residual : ℕ → ℚ) (accuracy : ℚ)
    (itermax ii : ℕ) (d : ℚ) (calls : ℕ) :
    scampLoopGo residual accuracy itermax 0 ii d calls = calls := rfl

theorem scampLoopGo_succ (residual : ℕ → ℚ) (accuracy : ℚ)
    (itermax f ii : ℕ) (d : ℚ) (calls : ℕ) :
    scampLoopGo residual accuracy itermax (f + 1) ii d calls =
      if accuracy ≤ d ∧ ii ≤ itermax then
        scampLoopGo residual accuracy itermax f (ii + 1) (residual calls)
          (calls + 1)
      else calls := rfl

theorem scampLoopGo_le (residual : ℕ → ℚ) (accuracy : ℚ) (itermax : ℕ) :
    ∀ (f ii : ℕ) (d : ℚ) (calls : ℕ),
      scampLoopGo residual accuracy itermax f ii d calls ≤
        calls + (itermax + 1 - ii) := by
  intro f
  induction f with
  | zero =>
    intro ii d calls
    rw [scampLoopGo_zero]
    omega
  | succ f ih =>
    intro ii d calls
    rw [scampLoopGo_succ]
    by_cases h : accuracy ≤ d ∧ ii ≤ itermax
    · rw [if_pos h]
      have := ih (ii + 1) (residual calls) (calls + 1)
      omega
    · rw [if_neg h]
      omega

/-- C7 counterexample: with iteration cap `itermax = 3` and a solver whose
residual (always 10) never meets the accuracy target 1, scamp is invoked
4 times — one more than the cap, because the loop guard `ii <= itermax`
is checked before `ii` is incremented. -/
theorem claim_C7_counterexample :
    scampCalls (fun _ => 10) 1 3 = 4 ∧ ¬ scampCalls (fun _ => 10) 1 3 ≤ 3 := by
  refine ⟨by decide, by decide⟩

/-- C7 amended: the solver is invoked while the residual is at least the
target and the iteration counter is at most the cap, so at most
`itermax + 1` invocations happen per file (not `itermax`), and as soon as
an invocation brings the residual below the target no further invocation
is made (one call if already the first residual is below a reachable
target); reaching the cap without meeting the target is not fatal (the
loop just exits). -/
theorem claim_C7_amended_call_bound (residual : ℕ → ℚ) (accuracy : ℚ)
    (itermax : ℕ) :
    scampCalls residual accuracy itermax ≤ itermax + 1 ∧
      (accuracy ≤ 10 → residual 0 < accuracy →
        scampCalls residual accuracy itermax = 1) := by
  constructor
  · have := scampLoopGo_le residual accuracy itermax (itermax + 2) 0 10 0
    simpa [scampCalls] using this
  · intro h10 hres
    show scampLoopGo residual accuracy itermax (itermax + 1 + 1) 0 10 0 = 1
    rw [scampLoopGo_succ, if_pos ⟨h10, Nat.zero_le _⟩, scampLoopGo_succ,
      if_neg (fun hc => absurd hc.1 (not_le.mpr hres))]

/-- C7 witness: the amended bound at a solver that succeeds immediately
(residual 0 with target 1, cap 3): exactly one invocation. -/
theorem claim_C7_amended_call_bound_witness :
    scampCalls (fun _ => 0) 1 3 ≤ 4 ∧ scampCalls (fun _ => 0) 1 3 = 1 :=
  ⟨(claim_C7_amended_call_bound (fun _ => 0) 1 3).1,
    (claim_C7_amended_call_bound (fun _ => 0) 1 3).2 (by norm_num) (by norm_num)⟩

/-! ## Claim C3: quadrant-to-global position reassembly -/

/-- C3: a detection's global pixel position is its quadrant-local position
plus the offset derived from the original image's header dimensions
divided by the grid shape; the offset is zero for an unpartitioned (1×1)
image, and in a 2×2 grid the quadrant labelled `Q3_1_0` receives the
offset `(NAXIS1 / 2 × 1, 0)` — half the first header dimension (the
"height" of the spec) on the `Ypos` axis, nothing on the `Xpos` axis. -/
theorem claim_C3_quadrant_offset (naxis1 naxis2 : ℕ) (p : PixPos) :
    globalPosition naxis1 naxis2 (1, 1) "None" p = some p ∧
      globalPosition naxis1 naxis2 (2, 2) "Q3_1_0" p =
        some ⟨p.x, p.y + (naxis1 / 2 : ℕ)⟩ ∧
      (∀ (nbCuts : ℕ × ℕ) (label : String) (i j : ℕ),
        nbCuts ≠ (1, 1) → parseQuadIndices label = some (i, j) →
        globalPosition naxis1 naxis2 nbCuts label p =
          some ⟨p.x + ((naxis2 / nbCuts.2 : ℕ) : ℚ) * ((j : ℕ) : ℚ),
            p.y + ((naxis1 / nbCuts.1 : ℕ) : ℚ) * ((i : ℕ) : ℚ)⟩) := by
  refine ⟨?_, ?_, ?_⟩
  · cases p
    simp [globalPosition]
  · have hp : parseQuadIndices "Q3_1_0" = some (1, 0) := by decide
    simp [globalPosition, hp]
  · intro nbCuts label i j hcuts hparse
    simp only [globalPosition]
    rw [if_neg hcuts, hparse]
    rfl

/-- C3 witness: the general offset rule at a 2×2 grid with a 2048×1024
original image and the quadrant label `Q2_0_1`. -/
theorem claim_C3_quadrant_offset_witness :
    globalPosition 2048 1024 (2, 2) "Q2_0_1" ⟨1, 2⟩ =
      some ⟨1 + ((1024 / 2 : ℕ) : ℚ) * (((1 : ℕ) : ℕ) : ℚ),
        2 + ((2048 / 2 : ℕ) : ℚ) * (((0 : ℕ) : ℕ) : ℚ)⟩ :=
  (claim_C3_quadrant_offset 2048 1024 ⟨1, 2⟩).2.2 (2, 2) "Q2_0_1" 0 1
    (by decide) (by decide)

/-! ## Claim C8: output file naming -/

/-- C8 counterexample: for a 2×2 partitioned run whose last processed file
stem is `image_Q4`, the final candidates file is `image.oc` (quadrant
suffix stripped) but the sky-position companion is written to
`image_Q4_oc_RADEC`, not to the claimed `image_oc_RADEC`. -/
theorem claim_C8_counterexample :
    ocFileName "" "image_Q4" (2, 2) = some "image.oc" ∧
      radecFileName "" "image_Q4" = "image_Q4_oc_RADEC" ∧
      "image_Q4_oc_RADEC" ≠ "image_oc_RADEC" := by
  refine ⟨by decide, by decide, by decide⟩

/-- C8 amended: the final candidates table goes to `<field-name>.oc` with
the quadrant suffix stripped from the processed file's stem (3 characters
dropped for a 2-character last underscore component, 4 for a 3-character
one); the sky-position companion goes to `<last processed stem>_oc_RADEC`
with the *unstripped* stem, which coincides with `<field-name>_oc_RADEC`
only for an unpartitioned image. -/
theorem claim_C8_amended_naming (folder filename2 : String) (nbCuts : ℕ × ℕ) :
    (nbCuts = (1, 1) →
      ocFileName folder filename2 nbCuts = some ((folder ++ filename2) ++ ".oc")) ∧
      (nbCuts ≠ (1, 1) → ((pySplit '_' filename2).getLastD "").length = 2 →
        ocFileName folder filename2 nbCuts =
          some ((folder ++ filename2.dropRight 3) ++ ".oc")) ∧
      (nbCuts ≠ (1, 1) → ((pySplit '_' filename2).getLastD "").length = 3 →
        ocFileName folder filename2 nbCuts =
          some ((folder ++ filename2.dropRight 4) ++ ".oc")) ∧
      radecFileName folder filename2 = folder ++ filename2 ++ "_oc_RADEC" ∧
      (nbCuts = (1, 1) →
        (originalName folder filename2 nbCuts).map (fun s => s ++ "_oc_RADEC") =
          some (radecFileName folder filename2)) := by
  refine ⟨?_, ?_, ?_, rfl, ?_⟩
  · intro hcuts
    simp [ocFileName, originalName, hcuts]
  · intro hcuts hlen
    simp only [ocFileName, originalName]
    rw [if_neg hcuts, if_pos hlen]
    rfl
  · intro hcuts hlen
    simp only [ocFileName, originalName]
    rw [if_neg hcuts, if_neg (by simp only [hlen]; decide), if_pos hlen]
    rfl
  · intro hcuts
    simp [originalName, radecFileName, hcuts]

/-- C8 witness: the amended naming rule at the stem `image_Q4` of a 2×2
run. -/
theorem claim_C8_amended_naming_witness :
    ocFileName "" "image_Q4" (2, 2) =
      some (("" ++ "image_Q4".dropRight 3) ++ ".oc") :=
  (claim_C8_amended_naming "" "image_Q4" (2, 2)).2.1 (by decide) (by decide)

/-! ## Helper lemmas: quadrant labels -/

theorem quadIndexPairs_succ (r c : ℕ) :
    quadIndexPairs (r + 1) c =
      quadIndexPairs r c ++ (List.range c).map fun j => (r, j) := by
  simp [quadIndexPairs, List.range_succ]

theorem quadIndexPairs_eq (r c : ℕ) :
    quadIndexPairs r c = (List.range (r * c)).map fun k => (k / c, k % c) := by
  induction r with
  | zero => simp [quadIndexPairs]
  | succ r ih =>
    rw [quadIndexPairs_succ, ih]
    have hrc : (r + 1) * c = r * c + c := by ring
    rw [hrc, List.range_add, List.map_append, List.map_map]
    congr 1
    apply List.map_congr_left
    intro j hj
    rw [List.mem_range] at hj
    have hc : 0 < c := by omega
    have h1 : (r * c + j) / c = r := by
      rw [Nat.add_comm, Nat.add_mul_div_right _ _ hc, Nat.div_eq_of_lt hj,
        Nat.zero_add]
    have h2 : (r * c + j) % c = j := by
      rw [Nat.add_comm, Nat.add_mul_mod_self_right, Nat.mod_eq_of_lt hj]
    simp [Function.comp, h1, h2]

theorem zip_range_map {β : Type} (n : ℕ) (g : ℕ → β) :
    (List.range n).zip ((List.range n).map g) =
      (List.range n).map fun k => (k, g k) := by
  apply List.ext_getElem
  · simp
  · intro k h1 h2
    simp [List.getElem_zip]

theorem quadrantLabels_eq (r c : ℕ) (h : 1 < r ∨ 1 < c) :
    quadrantLabels r c =
      (List.range (r * c)).map fun k =>
        quadrantLabel (k + 1) (k / c) (k % c) := by
  rw [quadrantLabels, if_pos h, quadIndexPairs_eq, List.length_map,
    List.length_range, zip_range_map, List.map_map]
  rfl

theorem takeWhile_append_of_forall (l r : List Char)
    (h : ∀ ch ∈ l, (ch != '_') = true) :
    (l ++ '_' :: r).takeWhile (fun ch => ch != '_') = l := by
  induction l with
  | nil => simp [List.takeWhile]
  | cons a t ih =>
    simp only [List.cons_append, List.takeWhile_cons]
    rw [h a (by simp)]
    simp only [if_true]
    rw [ih (fun ch hch => h ch (by simp [hch]))]

theorem quadrantLabel_inj_n {a i₁ j₁ b i₂ j₂ : ℕ}
    (h : quadrantLabel a i₁ j₁ = quadrantLabel b i₂ j₂) : a = b := by
  apply repr_injective
  have hd := congrArg String.data h
  have hQ : ("Q" : String).data = ['Q'] := rfl
  have hU : ("_" : String).data = ['_'] := rfl
  simp only [quadrantLabel, String.data_append, hQ, hU, List.append_assoc,
    List.cons_append, List.nil_append, List.cons.injEq, true_and] at hd
  have t1 := congrArg (List.takeWhile fun ch => ch != '_') hd
  rw [takeWhile_append_of_forall _ _
      (fun ch hch => by simpa using repr_data_ne_underscore a ch hch),
    takeWhile_append_of_forall _ _
      (fun ch hch => by simpa using repr_data_ne_underscore b ch hch)] at t1
  exact congrArg String.mk t1

theorem nodup_quadrantLabels (r c : ℕ) : (quadrantLabels r c).Nodup := by
  by_cases h : 1 < r ∨ 1 < c
  · rw [quadrantLabels_eq r c h]
    refine List.Nodup.map_on ?_ (List.nodup_range _)
    intro x hx y hy hxy
    have := quadrantLabel_inj_n hxy
    omega
  · rw [quadrantLabels, if_neg h]
    simp

theorem length_quadrantLabels (r c : ℕ) (hr : 1 ≤ r) (hc : 1 ≤ c) :
    (quadrantLabels r c).length = r * c := by
  by_cases h : 1 < r ∨ 1 < c
  · rw [quadrantLabels_eq r c h]
    simp
  · have hr1 : r = 1 := by omega
    have hc1 : c = 1 := by omega
    subst hr1
    subst hc1
    decide

/-! ## Claim C9: the quadrant labels of the Partitioner -/

/-- C9 counterexample: the label of the unpartitioned (1×1) grid is the
string `"None"` (capital N), not the claimed `"none"`. -/
theorem claim_C9_counterexample_lowercase :
    quadrantLabels 1 1 = ["None"] ∧ quadrantLabels 1 1 ≠ ["none"] := by
  refine ⟨by decide, by decide⟩

/-- C9 amended: for every grid shape `(r, c)` with `r, c ≥ 1` the
Partitioner produces exactly `r*c` pairwise distinct quadrant labels; the
label is `"None"` (capitalised, not `"none"`) when the grid is 1×1, and
otherwise the label at row-major position `k` is
`Q<k+1>_<k/c>_<k%c>`: `Q<n>_<row>_<col>` with `n` the 1-based linear
index in row-major iteration order and `(row, col)` the 0-based grid
coordinates. -/
theorem claim_C9_amended_quadrant_labels (r c : ℕ) (hr : 1 ≤ r)
    (hc : 1 ≤ c) :
    (quadrantLabels r c).length = r * c ∧
      (quadrantLabels r c).Nodup ∧
      quadrantLabels 1 1 = ["None"] ∧
      (1 < r ∨ 1 < c → ∀ k, k < r * c →
        (quadrantLabels r c)[k]? =
          some (quadrantLabel (k + 1) (k / c) (k % c))) := by
  refine ⟨length_quadrantLabels r c hr hc, nodup_quadrantLabels r c,
    by decide, ?_⟩
  intro h k hk
  rw [quadrantLabels_eq r c h]
  simp [List.getElem?_map, List.getElem?_range, hk]

/-- C9 witness: the amended statement at the 2×2 grid; in particular the
third label (row-major position 2) is `Q3_1_0`. -/
theorem claim_C9_amended_quadrant_labels_witness :
    (quadrantLabels 2 2).length = 2 * 2 ∧
      (quadrantLabels 2 2).Nodup ∧
      (quadrantLabels 2 2)[2]? = some (quadrantLabel (2 + 1) (2 / 2) (2 % 2)) := by
  have h := claim_C9_amended_quadrant_labels 2 2 (by decide) (by decide)
  exact ⟨h.1, h.2.1, h.2.2.2 (by decide) 2 (by decide)⟩

end Gmadet
